import Mathlib

/-!
Shallow embedding of the taxi-booking dispatch engine (`models.py`):
data model (`Location`, `Car`, `Book`, `State`), distance and path
algorithms, nearest-car selection, booking, the per-tick movement loop,
and reset.  The theorems settle the frozen claims about this program.
-/

namespace Taxi


/-- Grid coordinate pair, from `Location` in `models.py`. -/
structure Location where
  x : Int
  y : Int
deriving DecidableEq, Repr

/-- Vehicle record, from `Car` in `models.py`; field defaults mirror the
pydantic defaults (`location=(0,0)`, `is_booked=False`, `path_location_index=-1`). -/
structure Car where
  car_id : Int
  name : String
  location : Location := ⟨0, 0⟩
  is_booked : Bool := false
  path_location_index : Int := -1
deriving DecidableEq, Repr

/-- Booking record, from `Book` in `models.py`. -/
structure Book where
  source : Location
  destination : Location
  car_id : Int
  path : List Location := []
  total_time : Nat := 0
deriving DecidableEq, Repr

/-- Process-wide simulation state, from `State` in `models.py`. -/
structure State where
  cars : List Car := []
  bookings : List Book := []
  current_time : Int := 0
deriving DecidableEq, Repr

/-- Manhattan distance, from `StateBase.calc_distance`. -/
def calc_distance (source destination : Location) : Nat :=
  (source.x - destination.x).natAbs + (source.y - destination.y).natAbs

/-- From `StateBase.calc_total_book_time`. -/
def calc_total_book_time (car : Car) (pickup destination : Location) : Nat :=
  calc_distance pickup car.location + calc_distance pickup destination

/-- From `StateBase.calc_path`: a vertical leg from `start.y` to `e.y`
(`dy + 1` points, the first being `start`), then a horizontal leg of `dx`
points at `e.y` (Python loops `range(dy + 1)` and `range(1, dx + 1)`). -/
def calc_path (start e : Location) : List Location :=
  let dx := (e.x - start.x).natAbs
  let dy := (e.y - start.y).natAbs
  let vertical := (List.range (dy + 1)).map fun (i : Nat) =>
    if start.y < e.y then Location.mk start.x (start.y + i)
    else Location.mk start.x (start.y - i)
  let horizontal := (List.range dx).map fun (i : Nat) =>
    if start.x < e.x then Location.mk (start.x + (i + 1)) e.y
    else Location.mk (start.x - (i + 1)) e.y
  vertical ++ horizontal

/-- From `StateBase.calc_car_path`: car-to-pickup path, then the
pickup-to-destination path with its first element popped (Python pops
only when that second list is nonempty). -/
def calc_car_path (car_location pickup destination : Location) : List Location :=
  let path := calc_path car_location pickup
  let path_from_pickup_to_destination := calc_path pickup destination
  let second := if 0 < path_from_pickup_to_destination.length
    then path_from_pickup_to_destination.tail
    else path_from_pickup_to_destination
  path ++ second

/-- From `State.get_car`: the first car with the given id, if any. -/
def get_car (s : State) (car_id : Int) : Option Car :=
  s.cars.find? fun car => car.car_id == car_id

/-- Mutation through the reference returned by `get_car`: replace the first
car whose id matches. -/
def update_car (cars : List Car) (car_id : Int) (f : Car → Car) : List Car :=
  match cars with
  | [] => []
  | car :: rest =>
    if car.car_id == car_id then f car :: rest
    else car :: update_car rest car_id f

/-- From `State.reset`: the fixed three-car fleet, no bookings, time zero. -/
def reset (_s : State) : State :=
  { cars := [ { car_id := 1, name := "Toyota Prius" },
              { car_id := 2, name := "Honda Civic" },
              { car_id := 3, name := "Ford Mustang" } ],
    bookings := [],
    current_time := 0 }

/-- Python list indexing `l[i]` (a negative index counts from the end);
`none` models `IndexError`. -/
def pyGet (l : List Location) (i : Int) : Option Location :=
  if 0 ≤ i then l.get? i.toNat
  else if -i ≤ (l.length : Int) then l.get? ((l.length : Int) + i).toNat
  else none

/-- The loop of `State.increment_time`.  Python's `enumerate(self.bookings)`
reads `bookings[i]` for a counter `i` that only grows, while `pop(index)` may
shorten the list, so the loop runs at most `length` iterations; `fuel` is that
bound.  The Bool is `false` when `book.path[car.path_location_index]` raises
`IndexError`; the state returned with it keeps the mutations made before the
raise (the index increment on the car, and everything from earlier iterations). -/
def tick_loop : Nat → State → Nat → State × Bool
  | 0, s, _ => (s, true)
  | fuel + 1, s, i =>
    if h : i < s.bookings.length then
      let book := s.bookings.get ⟨i, h⟩
      match get_car s book.car_id with
      | none => tick_loop fuel s (i + 1)
      | some car =>
        let newIdx := car.path_location_index + 1
        let bump : Car → Car := fun c => { c with path_location_index := newIdx }
        let s1 := { s with cars := update_car s.cars book.car_id bump }
        match pyGet book.path newIdx with
        | none => (s1, false)
        | some loc =>
          let move : Car → Car := fun c => { c with location := loc }
          let s2 := { s1 with cars := update_car s1.cars book.car_id move }
          if newIdx = (book.path.length : Int) - 1 then
            let arrive : Car → Car :=
              fun c => { c with is_booked := false, path_location_index := -1 }
            let s3 := { s2 with cars := update_car s2.cars book.car_id arrive }
            let s4 := { s3 with bookings := s3.bookings.eraseIdx i }
            tick_loop fuel s4 (i + 1)
          else
            tick_loop fuel s2 (i + 1)
    else (s, true)

/-- From `State.increment_time`: bump the clock, then run the movement loop. -/
def increment_time (s : State) : State × Bool :=
  tick_loop s.bookings.length { s with current_time := s.current_time + 1 } 0

/-- One iteration of the loop in `State.find_nearest_available_car`.  The
accumulator holds (position, car, nearest_distance); `none` stands for the
initial `nearest_car = None`, `nearest_distance = inf` (any integer distance
beats infinity).  The two `if` statements of the source are kept in sequence. -/
def fnac_step (pickup : Location) (acc : Option (Nat × Car × Nat)) (i : Nat)
    (car : Car) : Option (Nat × Car × Nat) :=
  if car.is_booked then acc
  else
    let distance := calc_distance pickup car.location
    let best :=
      match acc with
      | none => (i, car, distance)
      | some (j, nc, nd) => if distance < nd then (i, car, distance) else (j, nc, nd)
    if distance = best.2.2 then
      if car.car_id < best.2.1.car_id then some (i, car, distance)
      else some (best.1, best.2.1, distance)
    else some best

/-- The `for car in self.cars` loop of `State.find_nearest_available_car`,
tracking each car's position in the list. -/
def fnac_go (pickup : Location) : Nat → Option (Nat × Car × Nat) → List Car →
    Option (Nat × Car × Nat)
  | _, acc, [] => acc
  | i, acc, car :: rest => fnac_go pickup (i + 1) (fnac_step pickup acc i car) rest

/-- From `State.find_nearest_available_car`, additionally reporting the chosen
car's position (Python returns an object reference into `self.cars`). -/
def find_nearest_entry (s : State) (pickup : Location) : Option (Nat × Car × Nat) :=
  fnac_go pickup 0 none s.cars

/-- The value-level result of `State.find_nearest_available_car`. -/
def find_nearest_available_car (s : State) (pickup : Location) : Option Car :=
  (find_nearest_entry s pickup).map fun e => e.2.1

/-- From `State.book_car`: pick the nearest available car, mark it booked at
path position 0 (its location is untouched), and append the new booking. -/
def book_car (s : State) (pickup destination : Location) : State × Option Book :=
  match find_nearest_entry s pickup with
  | none => (s, none)
  | some (i, nearest_car, _) =>
    let nc := { nearest_car with is_booked := true, path_location_index := 0 }
    let book : Book :=
      { car_id := nc.car_id
        source := pickup
        destination := destination
        total_time := calc_total_book_time nc pickup destination
        path := calc_car_path nc.location pickup destination }
    ({ s with cars := s.cars.set i nc, bookings := s.bookings ++ [book] }, some book)

/-- Repeated `increment_time`, keeping the state component. -/
def run_ticks : Nat → State → State
  | 0, s => s
  | k + 1, s => run_ticks k (increment_time s).1

/-- Number of active bookings referencing a car id. -/
def bookCount (s : State) (cid : Int) : Nat :=
  s.bookings.countP fun b => b.car_id == cid

/-- Inductive invariant: car ids are pairwise distinct, and each car is
referenced by exactly one booking when booked and by none otherwise. -/
def StrongInv (s : State) : Prop :=
  (s.cars.map Car.car_id).Nodup ∧
  ∀ c ∈ s.cars, bookCount s c.car_id = if c.is_booked then 1 else 0

/-- States reachable from a reset through completed operations. -/
inductive Reachable : State → Prop
  | reset_init (s : State) : Reachable (reset s)
  | book (s : State) (pickup destination : Location) :
      Reachable s → Reachable (book_car s pickup destination).1
  | tick (s : State) : Reachable s → (increment_time s).2 = true →
      Reachable (increment_time s).1

/-- The state after startup (`main.py` resets a fresh `State()`). -/
def init_state : State := reset {}

/-- Booking a trip whose pickup and destination coincide with the chosen
car's location: the resulting path is the single point `[(0,0)]`. -/
def degenerate_state : State := (book_car init_state ⟨0, 0⟩ ⟨0, 0⟩).1

/-- After one booking of car 1 from (0,0) to (1,0). -/
def skip_state_a : State := (book_car init_state ⟨0, 0⟩ ⟨1, 0⟩).1

/-- Two one-step bookings: car 1 to (1,0), car 2 to (0,1).  Both would
complete on the next tick, exposing the pop-while-iterating skip. -/
def skip_state : State := (book_car skip_state_a ⟨0, 0⟩ ⟨0, 1⟩).1

/-- The second booking held by `skip_state`. -/
def skip_booking : Book :=
  { source := ⟨0, 0⟩, destination := ⟨0, 1⟩, car_id := 2,
    path := [⟨0, 0⟩, ⟨0, 1⟩], total_time := 1 }

def solo_car : Car :=
  { car_id := 1, name := "Toyota Prius", location := ⟨0, 0⟩,
    is_booked := true, path_location_index := 0 }

def solo_booking : Book :=
  { source := ⟨0, 0⟩, destination := ⟨1, 0⟩, car_id := 1,
    path := [⟨0, 0⟩, ⟨1, 0⟩], total_time := 1 }

/-- The booking created from the reset state with pickup (1,1) and
destination (3,1): car 1 at (0,0), total_time 2 + 2. -/
def c6_example_book : Book :=
  { source := ⟨1, 1⟩, destination := ⟨3, 1⟩, car_id := 1,
    path := [⟨0, 0⟩, ⟨0, 1⟩, ⟨1, 1⟩, ⟨2, 1⟩, ⟨3, 1⟩], total_time := 4 }

/-- Two locations differing by exactly one unit in exactly one axis. -/
def unit_step (a b : Location) : Prop :=
  (a.x = b.x ∧ (a.y - b.y).natAbs = 1) ∨ (a.y = b.y ∧ (a.x - b.x).natAbs = 1)

/-- The vertical-leg point emitted by `calc_path` at offset `i`. -/
def vpoint (start e : Location) (i : Nat) : Location :=
  if start.y < e.y then Location.mk start.x (start.y + i)
  else Location.mk start.x (start.y - i)

/-- The horizontal-leg point emitted by `calc_path` at offset `i`. -/
def hpoint (start e : Location) (i : Nat) : Location :=
  if start.x < e.x then Location.mk (start.x + (i + 1)) e.y
  else Location.mk (start.x - (i + 1)) e.y

/-- Loop invariant of `find_nearest_available_car`: after scanning `l`
(whose first element sits at list position `i`), a `none` accumulator means
every scanned car was booked, and a `some (j, c, d)` accumulator holds an
unbooked scanned car `c` at position `j` whose distance `d` to the pickup is
minimal among scanned unbooked cars, with the smallest id on ties. -/
def fnac_inv (pickup : Location) (i : Nat) (l : List Car) :
    Option (Nat × Car × Nat) → Prop
  | none => ∀ c ∈ l, c.is_booked = true
  | some (j, c, d) =>
      c.is_booked = false ∧ d = calc_distance pickup c.location ∧
      (∃ k, l.get? k = some c ∧ j = i + k) ∧
      ∀ c' ∈ l, c'.is_booked = false →
        d ≤ calc_distance pickup c'.location ∧
        (calc_distance pickup c'.location = d → c.car_id ≤ c'.car_id)

lemma calc_path_eq (start e : Location) :
    calc_path start e =
      (List.range ((e.y - start.y).natAbs + 1)).map (vpoint start e) ++
      (List.range ((e.x - start.x).natAbs)).map (hpoint start e) := by
  unfold calc_path vpoint hpoint
  rfl

lemma vpoint_zero (start e : Location) : vpoint start e 0 = start := by
  unfold vpoint
  split <;> simp

lemma vpoint_top (start e : Location) :
    vpoint start e ((e.y - start.y).natAbs) = ⟨start.x, e.y⟩ := by
  unfold vpoint
  split <;> (rename_i h) <;> (refine congrArg (Location.mk start.x) ?_) <;> omega

lemma hpoint_last (start e : Location) (h : 0 < (e.x - start.x).natAbs) :
    hpoint start e ((e.x - start.x).natAbs - 1) = e := by
  unfold hpoint
  have hx : (((e.x - start.x).natAbs - 1 : Nat) : Int) = ((e.x - start.x).natAbs : Int) - 1 := by
    omega
  split <;> (rename_i hlt) <;> (refine congrArg (fun z => Location.mk z e.y) ?_) <;> omega

lemma head?_map_range {α : Type} (f : Nat → α) (n : Nat) :
    ((List.range (n + 1)).map f).head? = some (f 0) := by
  rw [List.range_succ_eq_map]
  simp

lemma getLast?_map_range {α : Type} (f : Nat → α) (n : Nat) (h : 0 < n) :
    ((List.range n).map f).getLast? = some (f (n - 1)) := by
  obtain ⟨m, rfl⟩ : ∃ m, n = m + 1 := ⟨n - 1, by omega⟩
  rw [List.range_succ, List.map_append]
  simp

lemma chain'_map_range {α : Type} (R : α → α → Prop) (f : Nat → α) (n : Nat)
    (h : ∀ i, i + 1 < n → R (f i) (f (i + 1))) :
    List.Chain' R ((List.range n).map f) := by
  rw [List.chain'_iff_get]
  intro i hi
  simp only [List.length_map, List.length_range] at hi
  simp only [List.get_eq_getElem, List.getElem_map, List.getElem_range]
  exact h i (by omega)

lemma vpoint_chain (start e : Location) (i : Nat) :
    unit_step (vpoint start e i) (vpoint start e (i + 1)) := by
  unfold vpoint unit_step
  split <;> simp

lemma hpoint_chain (start e : Location) (i : Nat) :
    unit_step (hpoint start e i) (hpoint start e (i + 1)) := by
  unfold hpoint unit_step
  split <;> simp

lemma hpoint_zero (start e : Location) :
    unit_step ⟨start.x, e.y⟩ (hpoint start e 0) := by
  unfold hpoint unit_step
  split <;> simp

lemma fnac_go_append (pickup : Location) (l : List Car) (a : Car) :
    ∀ (i : Nat) (acc : Option (Nat × Car × Nat)),
      fnac_go pickup i acc (l ++ [a]) =
        fnac_step pickup (fnac_go pickup i acc l) (i + l.length) a := by
  induction l with
  | nil => intro i acc; simp [fnac_go]
  | cons c rest ih =>
    intro i acc
    have h1 : fnac_go pickup i acc ((c :: rest) ++ [a]) =
        fnac_go pickup (i + 1) (fnac_step pickup acc i c) (rest ++ [a]) := rfl
    have h2 : fnac_go pickup i acc (c :: rest) =
        fnac_go pickup (i + 1) (fnac_step pickup acc i c) rest := rfl
    have harith : i + 1 + rest.length = i + (c :: rest).length := by
      simp only [List.length_cons]
      omega
    rw [h1, ih, h2, harith]

/-- The net effect of the two sequenced `if` statements in the selection
loop: a strictly closer unbooked car replaces the best, an equally distant
one replaces it only on a strictly smaller id, and a booked car is skipped. -/
lemma fnac_step_eq (pickup : Location) (acc : Option (Nat × Car × Nat))
    (i : Nat) (a : Car) :
    fnac_step pickup acc i a =
      if a.is_booked then acc
      else
        match acc with
        | none => some (i, a, calc_distance pickup a.location)
        | some (j, c, d) =>
          if calc_distance pickup a.location < d then
            some (i, a, calc_distance pickup a.location)
          else if calc_distance pickup a.location = d then
            (if a.car_id < c.car_id then some (i, a, calc_distance pickup a.location)
             else some (j, c, calc_distance pickup a.location))
          else some (j, c, d) := by
  unfold fnac_step
  by_cases hab : a.is_booked
  · simp [hab]
  · simp only [hab, if_false, Bool.false_eq_true]
    rcases acc with _ | ⟨j, c, d⟩
    · simp
    · by_cases hlt : calc_distance pickup a.location < d
      · simp [hlt, lt_irrefl]
      · by_cases heq : calc_distance pickup a.location = d
        · simp [hlt, heq]
        · simp [hlt, heq]

lemma fnac_go_inv (pickup : Location) (l : List Car) (i : Nat) :
    fnac_inv pickup i l (fnac_go pickup i none l) := by
  induction l using List.reverseRecOn with
  | nil => intro c hc; simp at hc
  | append_singleton l a ih =>
    rw [fnac_go_append, fnac_step_eq]
    rcases hr : fnac_go pickup i none l with _ | ⟨j, c, d⟩ <;> rw [hr] at ih
    · -- every car scanned so far was booked
      by_cases hab : a.is_booked
      · rw [if_pos hab]
        intro c hc
        rcases List.mem_append.mp hc with h | h
        · exact ih c h
        · simp at h; subst h; exact hab
      · rw [if_neg hab]
        refine ⟨Bool.not_eq_true _ ▸ hab, rfl,
          ⟨l.length, List.get?_concat_length l a, rfl⟩, ?_⟩
        intro c' hc' hun
        rcases List.mem_append.mp hc' with h | h
        · rw [ih c' h] at hun; simp at hun
        · simp at h; subst h; exact ⟨le_refl _, fun _ => le_refl _⟩
    · obtain ⟨hun, hd, ⟨k, hk, hj⟩, hmin⟩ := ih
      have hklt : k < l.length := (List.get?_eq_some.mp hk).1
      have hk' : (l ++ [a]).get? k = some c := by
        rw [List.get?_append hklt]; exact hk
      by_cases hab : a.is_booked
      · rw [if_pos hab]
        refine ⟨hun, hd, ⟨k, hk', hj⟩, ?_⟩
        intro c' hc' hun'
        rcases List.mem_append.mp hc' with h | h
        · exact hmin c' h hun'
        · simp at h; subst h; rw [hab] at hun'; simp at hun'
      · rw [if_neg hab]
        have hab' : a.is_booked = false := Bool.not_eq_true _ ▸ hab
        by_cases hlt : calc_distance pickup a.location < d
        · simp only [hlt, if_true]
          refine ⟨hab', rfl, ⟨l.length, List.get?_concat_length l a, rfl⟩, ?_⟩
          intro c' hc' hun'
          rcases List.mem_append.mp hc' with h | h
          · obtain ⟨h1, h2⟩ := hmin c' h hun'
            exact ⟨by omega, fun he => by omega⟩
          · simp at h; subst h; exact ⟨le_refl _, fun _ => le_refl _⟩
        · by_cases heq : calc_distance pickup a.location = d
          · simp only [hlt, heq, if_false, if_true, lt_irrefl]
            by_cases hid : a.car_id < c.car_id
            · simp only [hid, if_true]
              refine ⟨hab', heq.symm,
                ⟨l.length, List.get?_concat_length l a, rfl⟩, ?_⟩
              intro c' hc' hun'
              rcases List.mem_append.mp hc' with h | h
              · obtain ⟨h1, h2⟩ := hmin c' h hun'
                refine ⟨by omega, fun he => le_of_lt (lt_of_lt_of_le hid (h2 (by omega)))⟩
              · simp at h; subst h; exact ⟨by omega, fun _ => le_refl _⟩
            · simp only [hid, if_false]
              refine ⟨hun, by omega, ⟨k, hk', hj⟩, ?_⟩
              intro c' hc' hun'
              rcases List.mem_append.mp hc' with h | h
              · obtain ⟨h1, h2⟩ := hmin c' h hun'
                exact ⟨by omega, fun he => h2 (by omega)⟩
              · simp at h; subst h
                exact ⟨by omega, fun _ => by omega⟩
          · simp only [hlt, heq, if_false]
            refine ⟨hun, hd, ⟨k, hk', hj⟩, ?_⟩
            intro c' hc' hun'
            rcases List.mem_append.mp hc' with h | h
            · exact hmin c' h hun'
            · simp at h; subst h
              exact ⟨by omega, fun he => absurd he (by omega)⟩

lemma find_nearest_entry_inv (s : State) (pickup : Location) :
    fnac_inv pickup 0 s.cars (find_nearest_entry s pickup) :=
  fnac_go_inv pickup s.cars 0

lemma pyGet_nonneg (l : List Location) (i : Int) (hi : 0 ≤ i) :
    pyGet l i = l.get? i.toNat := by
  unfold pyGet
  rw [if_pos hi]

lemma update_car_comp (cars : List Car) (cid : Int) (f g : Car → Car)
    (hf : ∀ c, (f c).car_id = c.car_id) :
    update_car (update_car cars cid f) cid g =
      update_car cars cid (fun c => g (f c)) := by
  induction cars with
  | nil => rfl
  | cons c rest ih =>
    by_cases h : c.car_id = cid
    · simp [update_car, h, hf]
    · simp [update_car, h, ih]

lemma increment_time_single (cars : List Car) (t : Int) (b : Book) (car : Car)
    (k N : Nat) (loc : Location)
    (hc : get_car (State.mk cars [b] t) b.car_id = some car)
    (hidx : car.path_location_index = (k : Int))
    (hN : b.path.length = N + 1)
    (hloc : b.path.get? (k + 1) = some loc) :
    increment_time (State.mk cars [b] t) =
      (if k + 1 = N then
        State.mk
          (update_car cars b.car_id (fun c =>
            { c with location := loc, is_booked := false,
                     path_location_index := -1 }))
          [] (t + 1)
      else
        State.mk
          (update_car cars b.car_id (fun c =>
            { c with location := loc,
                     path_location_index := ((k + 1 : Nat) : Int) }))
          [b] (t + 1), true) := by
  show tick_loop 1 (State.mk cars [b] (t + 1)) 0 = _
  simp only [tick_loop]
  rw [dif_pos (by simp)]
  simp only [List.get]
  rw [show get_car (State.mk cars [b] (t + 1)) b.car_id = some car from hc]
  dsimp only
  rw [hidx]
  rw [show pyGet b.path ((k : Int) + 1) = some loc from by
    rw [pyGet_nonneg _ _ (by omega), show ((k : Int) + 1).toNat = k + 1 from by omega,
      hloc]]
  dsimp only
  rw [hN]
  by_cases hkN : k + 1 = N
  · rw [if_pos (by push_cast; omega), if_pos hkN, update_car_comp, update_car_comp]
    · rfl
    · intro c; rfl
    · intro c; rfl
  · rw [if_neg (by push_cast; omega), if_neg hkN, update_car_comp]
    · have hcast : ((k : Int) + 1) = ((k + 1 : Nat) : Int) := by push_cast; ring
      rw [hcast]
    · intro c; rfl

lemma find?_update_car (cars : List Car) (cid : Int) (f : Car → Car)
    (hf : ∀ c, (f c).car_id = c.car_id) :
    (update_car cars cid f).find? (fun car => car.car_id == cid) =
      (cars.find? (fun car => car.car_id == cid)).map f := by
  induction cars with
  | nil => rfl
  | cons c rest ih =>
    by_cases h : c.car_id = cid
    · simp [update_car, h, List.find?, hf]
    · have hb : (c.car_id == cid) = false := by simp [h]
      simp [update_car, h, hb, List.find?, ih]

lemma update_car_eq_self (cars : List Car) (cid : Int) (f : Car → Car) (car : Car)
    (hfind : cars.find? (fun c => c.car_id == cid) = some car)
    (hfc : f car = car) :
    update_car cars cid f = cars := by
  induction cars with
  | nil => rfl
  | cons c rest ih =>
    by_cases h : c.car_id = cid
    · rw [List.find?_cons_of_pos _ (by simp [h])] at hfind
      obtain rfl : c = car := Option.some_inj.mp hfind
      simp [update_car, h, hfc]
    · rw [List.find?_cons_of_neg _ (by simp [h])] at hfind
      simp [update_car, h, ih hfind]

lemma run_ticks_succ (k : Nat) (s : State) :
    run_ticks (k + 1) s = (increment_time (run_ticks k s)).1 := by
  induction k generalizing s with
  | zero => rfl
  | succ k ih =>
    show run_ticks (k + 1) (increment_time s).1 = _
    rw [ih]
    rfl

lemma run_ticks_single_mid (cars : List Car) (t : Int) (b : Book) (car : Car) (N : Nat)
    (hc : get_car (State.mk cars [b] t) b.car_id = some car)
    (hidx : car.path_location_index = 0)
    (hloc0 : b.path.get? 0 = some car.location)
    (hN : b.path.length = N + 1) :
    ∀ k, k ≤ N - 1 →
      ∃ loc, b.path.get? k = some loc ∧
        run_ticks k (State.mk cars [b] t) =
          State.mk (update_car cars b.car_id
            (fun c => { c with location := loc, path_location_index := ((k : Nat) : Int) }))
            [b] (t + (k : Int)) := by
  intro k
  induction k with
  | zero =>
    intro _
    refine ⟨car.location, hloc0, ?_⟩
    have hf0 : (fun c => { c with location := car.location, path_location_index := (((0 : Nat) : Nat) : Int) }) car = car := by
      rcases car with ⟨a1, a2, a3, a4, a5⟩
      simp only at hidx
      simp [hidx]
    rw [update_car_eq_self _ _ _ _ hc hf0]
    show State.mk cars [b] t = _
    norm_num
  | succ k ih =>
    intro hk1
    obtain ⟨loc, hlock, hmid⟩ := ih (by omega)
    have hk1lt : k + 1 < b.path.length := by omega
    obtain ⟨loc', hloc'⟩ : ∃ x, b.path.get? (k + 1) = some x := by
      rw [List.get?_eq_get hk1lt]
      exact ⟨_, rfl⟩
    refine ⟨loc', hloc', ?_⟩
    rw [run_ticks_succ, hmid]
    have hcmid : get_car (State.mk (update_car cars b.car_id (fun c => { c with location := loc, path_location_index := ((k : Nat) : Int) })) [b] (t + (k : Int))) b.car_id = some { car with location := loc, path_location_index := ((k : Nat) : Int) } := by
      show (update_car cars b.car_id _).find? _ = _
      rw [find?_update_car]
      · rw [show cars.find? (fun c => c.car_id == b.car_id) = some car from hc]
        rfl
      · intro c; rfl
    rw [increment_time_single _ _ _ _ k N loc' hcmid rfl hN hloc']
    rw [if_neg (by omega)]
    rw [update_car_comp]
    · have hcast : t + (k : Int) + 1 = t + ((k + 1 : Nat) : Int) := by push_cast; ring
      rw [hcast]
    · intro c; rfl

lemma one_le_countP (l : List Book) (p : Book → Bool) (i : Nat) (x : Book)
    (h : l.get? i = some x) (hp : p x = true) : 1 ≤ l.countP p := by
  by_contra hc
  have h0 : l.countP p = 0 := by omega
  exact absurd hp (by simpa using List.countP_eq_zero.mp h0 x (List.get?_mem h))

lemma countP_eraseIdx (l : List Book) (p : Book → Bool) (i : Nat) (x : Book)
    (h : l.get? i = some x) :
    (l.eraseIdx i).countP p = l.countP p - (if p x then 1 else 0) := by
  induction l generalizing i with
  | nil => simp at h
  | cons a rest ih =>
    cases i with
    | zero =>
      have hax : a = x := by simpa using h
      subst hax
      rcases hpx : p a <;> simp [List.eraseIdx, List.countP_cons, hpx]
    | succ i =>
      have h' : rest.get? i = some x := by simpa using h
      have hre : (a :: rest).eraseIdx (i + 1) = a :: rest.eraseIdx i := rfl
      rw [hre, List.countP_cons, List.countP_cons, ih i h']
      rcases hpx : p x
      · simp
      · have h1 := one_le_countP rest p i x h' hpx
        rcases hpa : p a <;> simp <;> omega

lemma map_nodup_get?_ne {l : List Car} (h : (l.map Car.car_id).Nodup)
    {k k' : Nat} (hkk : k ≠ k') {a b : Car}
    (ha : l.get? k = some a) (hb : l.get? k' = some b) : a.car_id ≠ b.car_id := by
  intro he
  have ha' : (l.map Car.car_id).get? k = some a.car_id := by
    rw [List.get?_map, ha]; rfl
  have hb' : (l.map Car.car_id).get? k' = some b.car_id := by
    rw [List.get?_map, hb]; rfl
  have hlen : k < (l.map Car.car_id).length := (List.get?_eq_some.mp ha').1
  exact hkk (List.get?_inj hlen h (by rw [ha', hb', he]))

lemma set_get?_self {α : Type} (l : List α) (n : Nat) (a : α)
    (h : l.get? n = some a) : l.set n a = l := by
  induction l generalizing n with
  | nil => rfl
  | cons c rest ih =>
    cases n with
    | zero =>
      obtain rfl : c = a := by simpa using h
      rfl
    | succ n => simp [List.set, ih n (by simpa using h)]

lemma update_car_spec (l : List Car) (cid : Int) (f : Car → Car) :
    (l.find? (fun c => c.car_id == cid) = none ∧ update_car l cid f = l) ∨
    (∃ k car0, l.get? k = some car0 ∧ car0.car_id = cid ∧
      l.find? (fun c => c.car_id == cid) = some car0 ∧
      update_car l cid f = l.set k (f car0)) := by
  induction l with
  | nil => left; exact ⟨rfl, rfl⟩
  | cons c rest ih =>
    by_cases h : c.car_id = cid
    · right
      exact ⟨0, c, rfl, h, by rw [List.find?_cons_of_pos _ (by simp [h])],
        by simp [update_car, h]⟩
    · rcases ih with ⟨hfind, hupd⟩ | ⟨k, car0, hget, hid, hfind, hupd⟩
      · left
        refine ⟨?_, ?_⟩
        · rw [List.find?_cons_of_neg _ (by simp [h])]; exact hfind
        · simp [update_car, h, hupd]
      · right
        refine ⟨k + 1, car0, by simpa using hget, hid, ?_, ?_⟩
        · rw [List.find?_cons_of_neg _ (by simp [h])]; exact hfind
        · simp [update_car, h, hupd, List.set]

lemma map_car_id_set (l : List Car) (k : Nat) (car0 : Car) (v : Car)
    (hget : l.get? k = some car0) (hv : v.car_id = car0.car_id) :
    (l.set k v).map Car.car_id = l.map Car.car_id := by
  rw [List.map_set, hv]
  apply set_get?_self
  rw [List.get?_map, hget]
  rfl

lemma strongInv_update_keep (s : State) (cid : Int) (f : Car → Car)
    (hf : ∀ c, (f c).car_id = c.car_id)
    (hfb : ∀ c, (f c).is_booked = c.is_booked)
    (hs : StrongInv s) :
    StrongInv { s with cars := update_car s.cars cid f } := by
  obtain ⟨hnd, hcount⟩ := hs
  rcases update_car_spec s.cars cid f with ⟨_, hupd⟩ | ⟨k, car0, hget, hid, _, hupd⟩
  · exact ⟨by rw [hupd]; exact hnd, by rw [hupd]; exact hcount⟩
  · have hklt : k < s.cars.length := (List.get?_eq_some.mp hget).1
    constructor
    · show ((update_car s.cars cid f).map Car.car_id).Nodup
      rw [hupd, map_car_id_set _ _ _ _ hget (hf car0)]
      exact hnd
    · intro c' hc'
      rw [hupd] at hc'
      obtain ⟨k', hk'⟩ := List.mem_iff_get?.mp hc'
      by_cases hkk : k' = k
      · subst hkk
        rw [List.get?_set_eq_of_lt _ hklt] at hk'
        obtain rfl : f car0 = c' := by simpa using hk'
        show bookCount s (f car0).car_id = _
        rw [hf, hfb]
        exact hcount car0 (List.get?_mem hget)
      · rw [List.get?_set_ne (f car0) s.cars (fun he => hkk he.symm)] at hk'
        exact hcount c' (List.get?_mem hk')

lemma strongInv_arrive_erase (s : State) (i : Nat) (cid : Int) (bk : Book)
    (hbk : s.bookings.get? i = some bk) (hcid : bk.car_id = cid)
    (f : Car → Car)
    (hf : ∀ c, (f c).car_id = c.car_id)
    (hfb : ∀ c, (f c).is_booked = false)
    (hs : StrongInv s) :
    StrongInv { s with cars := update_car s.cars cid f,
                       bookings := s.bookings.eraseIdx i } := by
  obtain ⟨hnd, hcount⟩ := hs
  rcases update_car_spec s.cars cid f with ⟨hfindnone, hupd⟩ |
    ⟨k, car0, hget, hid, _, hupd⟩
  · constructor
    · rw [hupd]; exact hnd
    · intro c' hc'
      rw [hupd] at hc'
      have h1 : c'.car_id ≠ cid := by
        simpa using List.find?_eq_none.mp hfindnone c' hc'
      have hne : (bk.car_id == c'.car_id) = false := by
        rw [hcid]
        simp only [beq_eq_false_iff_ne, ne_eq]
        omega
      show (s.bookings.eraseIdx i).countP _ = _
      rw [countP_eraseIdx _ _ _ _ hbk, hne]
      simpa using hcount c' hc'
  · have hklt : k < s.cars.length := (List.get?_eq_some.mp hget).1
    constructor
    · show ((update_car s.cars cid f).map Car.car_id).Nodup
      rw [hupd, map_car_id_set _ _ _ _ hget (hf car0)]
      exact hnd
    · intro c' hc'
      rw [hupd] at hc'
      obtain ⟨k', hk'⟩ := List.mem_iff_get?.mp hc'
      by_cases hkk : k' = k
      · subst hkk
        rw [List.get?_set_eq_of_lt _ hklt] at hk'
        obtain rfl : f car0 = c' := by simpa using hk'
        have h1 : 1 ≤ s.bookings.countP (fun b => b.car_id == car0.car_id) := by
          refine one_le_countP _ _ i bk hbk ?_
          simp [hcid, hid]
        have h2 := hcount car0 (List.get?_mem hget)
        unfold bookCount at h2
        have hbooked : car0.is_booked = true := by
          by_contra hb0
          have hb0' : car0.is_booked = false := by
            revert hb0
            cases car0.is_booked <;> simp
          rw [hb0', if_neg (by simp)] at h2
          omega
        rw [hbooked] at h2
        simp only [if_true] at h2
        have hpbk : (bk.car_id == car0.car_id) = true := by simp [hcid, hid]
        show (s.bookings.eraseIdx i).countP _ = _
        rw [hf, hfb, countP_eraseIdx _ _ _ _ hbk, hpbk, h2]
        decide
      · rw [List.get?_set_ne (f car0) s.cars (fun he => hkk he.symm)] at hk'
        have hne : c'.car_id ≠ car0.car_id :=
          map_nodup_get?_ne hnd hkk hk' hget
        have hnebk : (bk.car_id == c'.car_id) = false := by
          simp only [beq_eq_false_iff_ne, ne_eq, hcid]
          omega
        show (s.bookings.eraseIdx i).countP _ = _
        rw [countP_eraseIdx _ _ _ _ hbk, hnebk]
        simpa using hcount c' (List.get?_mem hk')

lemma strongInv_time (s : State) (t : Int) (hs : StrongInv s) :
    StrongInv { s with current_time := t } := hs

lemma tick_loop_preserves (fuel : Nat) :
    ∀ (s : State) (i : Nat) (s' : State),
      StrongInv s → tick_loop fuel s i = (s', true) → StrongInv s' := by
  induction fuel with
  | zero =>
    intro s i s' hs h
    obtain ⟨h1, _⟩ := Prod.mk.injEq .. ▸ h
    exact h1 ▸ hs
  | succ fuel ih =>
    intro s i s' hs h
    simp only [tick_loop] at h
    by_cases hi : i < s.bookings.length
    · rw [dif_pos hi] at h
      rcases hgc : get_car s (s.bookings.get ⟨i, hi⟩).car_id with _ | car
      · simp only [hgc] at h
        exact ih _ _ _ hs h
      · simp only [hgc] at h
        rcases hpg : pyGet (s.bookings.get ⟨i, hi⟩).path (car.path_location_index + 1)
          with _ | loc
        · simp only [hpg] at h
          exact absurd (congrArg Prod.snd h) (by simp)
        · simp only [hpg] at h
          by_cases harr : car.path_location_index + 1 =
              ((s.bookings.get ⟨i, hi⟩).path.length : Int) - 1
          · rw [if_pos harr] at h
            refine ih _ _ _
              (strongInv_arrive_erase _ i _ (s.bookings.get ⟨i, hi⟩) ?_ ?_ _ ?_ ?_
                (strongInv_update_keep _ _ _ ?_ ?_
                  (strongInv_update_keep _ _ _ ?_ ?_ hs))) h
            · exact List.get?_eq_get hi
            · rfl
            · intro c; rfl
            · intro c; rfl
            · intro c; rfl
            · intro c; rfl
            · intro c; rfl
            · intro c; rfl
          · rw [if_neg harr] at h
            refine ih _ _ _
              (strongInv_update_keep _ _ _ ?_ ?_
                (strongInv_update_keep _ _ _ ?_ ?_ hs)) h
            · intro c; rfl
            · intro c; rfl
            · intro c; rfl
            · intro c; rfl
    · rw [dif_neg hi] at h
      obtain ⟨h1, _⟩ := Prod.mk.injEq .. ▸ h
      exact h1 ▸ hs

lemma increment_time_preserves (s s' : State)
    (h : increment_time s = (s', true)) (hs : StrongInv s) : StrongInv s' :=
  tick_loop_preserves _ _ _ _ (strongInv_time s _ hs) h

lemma book_car_preserves (s : State) (p d : Location) (hs : StrongInv s) :
    StrongInv (book_car s p d).1 := by
  have hinv := find_nearest_entry_inv s p
  rcases hfe : find_nearest_entry s p with _ | ⟨j, c, dd⟩ <;> rw [hfe] at hinv
  · unfold book_car
    rw [hfe]
    exact hs
  · obtain ⟨hun, hd, ⟨k, hk, hj⟩, _⟩ := hinv
    obtain rfl : j = k := by omega
    unfold book_car
    rw [hfe]
    obtain ⟨hnd, hcount⟩ := hs
    have hklt : j < s.cars.length := (List.get?_eq_some.mp hk).1
    constructor
    · have hmap := map_car_id_set s.cars j c
        { c with is_booked := true, path_location_index := 0 } hk rfl
      show ((s.cars.set j _).map Car.car_id).Nodup
      rw [hmap]
      exact hnd
    · intro c' hc'
      obtain ⟨k', hk'⟩ := List.mem_iff_get?.mp hc'
      by_cases hkk : k' = j
      · subst hkk
        rw [List.get?_set_eq_of_lt _ hklt] at hk'
        obtain rfl : ({ c with is_booked := true, path_location_index := 0 } : Car) = c' := by
          simpa using hk'
        show (s.bookings ++ [_]).countP _ = _
        rw [List.countP_append]
        have h0 : bookCount s c.car_id = 0 := by
          have := hcount c (List.get?_mem hk)
          rw [hun] at this
          simpa using this
        unfold bookCount at h0
        rw [h0]
        simp
      · rw [List.get?_set_ne _ s.cars (fun he => hkk he.symm)] at hk'
        have hne : c'.car_id ≠ c.car_id := map_nodup_get?_ne hnd hkk hk' hk
        show (s.bookings ++ [_]).countP _ = _
        rw [List.countP_append]
        have h1 := hcount c' (List.get?_mem hk')
        unfold bookCount at h1
        rw [h1]
        have hne2 : (c.car_id == c'.car_id) = false := by
          simp only [beq_eq_false_iff_ne, ne_eq]
          omega
        simp [hne2]

lemma strongInv_reset (s : State) : StrongInv (reset s) := by
  show StrongInv (State.mk
    [Car.mk 1 "Toyota Prius" ⟨0, 0⟩ false (-1),
     Car.mk 2 "Honda Civic" ⟨0, 0⟩ false (-1),
     Car.mk 3 "Ford Mustang" ⟨0, 0⟩ false (-1)] [] 0)
  constructor
  · decide
  · decide

lemma reachable_strongInv (s : State) (hreach : Reachable s) : StrongInv s := by
  induction hreach with
  | reset_init s0 => exact strongInv_reset s0
  | book s0 p d _ ih => exact book_car_preserves s0 p d ih
  | tick s0 _ hok ih =>
    have hpair : increment_time s0 = ((increment_time s0).1, true) := by
      rw [← hok]
    exact increment_time_preserves s0 _ hpair ih

/-- C1 (counterexample to the claim as stated): `skip_booking` in
`skip_state` has a path of length N+1 with N = 1, yet after N calls to
incrementTime() its car is still booked at (0,0) — not at the destination
(0,1) — and the booking is still in the active list, because the removal of
the earlier completed booking skipped it within the same tick. -/
theorem c1_counterexample :
    skip_state.bookings.get? 1 = some skip_booking ∧
    skip_booking.path.length = 1 + 1 ∧
    (run_ticks 1 skip_state).bookings.get? 0 = some skip_booking ∧
    (get_car (run_ticks 1 skip_state) skip_booking.car_id).map Car.location =
      some ⟨0, 0⟩ ∧
    (get_car (run_ticks 1 skip_state) skip_booking.car_id).map Car.is_booked =
      some true ∧
    skip_booking.destination ≠ (⟨0, 0⟩ : Location) :=
  ⟨rfl, rfl, rfl, rfl, rfl, by decide⟩

/-- C1 (amended: the booking is the sole active booking, so no earlier
removal can skip it): for every state holding exactly one active booking
whose path has length N+1 (N ≥ 1), whose car starts at path position 0 and
path[0], and whose path ends at the destination, after N incrementTime()
calls the car's location is the destination, its booked flag is false, and
the booking is gone; after N-1 calls the booking is still active and the
car's location is path[N-1]. -/
theorem c1_single_booking (s : State) (b : Book) (car : Car) (N : Nat)
    (hb : s.bookings = [b])
    (hc : get_car s b.car_id = some car)
    (hidx : car.path_location_index = 0)
    (hN : b.path.length = N + 1)
    (hN1 : 1 ≤ N)
    (hloc0 : b.path.get? 0 = some car.location)
    (hdest : b.path.get? N = some b.destination) :
    (run_ticks N s).bookings = [] ∧
    (get_car (run_ticks N s) b.car_id).map Car.location = some b.destination ∧
    (get_car (run_ticks N s) b.car_id).map Car.is_booked = some false ∧
    (run_ticks (N - 1) s).bookings = [b] ∧
    (get_car (run_ticks (N - 1) s) b.car_id).map Car.location = b.path.get? (N - 1) := by
  obtain ⟨cars, bks, t⟩ := s
  obtain rfl : bks = [b] := hb
  obtain ⟨locm, hlocm, hmid⟩ :=
    run_ticks_single_mid cars t b car N hc hidx hloc0 hN (N - 1) (le_refl _)
  have hNsucc : N = (N - 1) + 1 := by omega
  have hcmid : get_car (State.mk (update_car cars b.car_id (fun c => { c with location := locm, path_location_index := ((N - 1 : Nat) : Int) })) [b] (t + ((N - 1 : Nat) : Int))) b.car_id = some { car with location := locm, path_location_index := ((N - 1 : Nat) : Int) } := by
    show (update_car cars b.car_id _).find? _ = _
    rw [find?_update_car]
    · rw [show cars.find? (fun c => c.car_id == b.car_id) = some car from hc]
      rfl
    · intro c; rfl
  have hstep := increment_time_single
    (update_car cars b.car_id (fun c => { c with location := locm, path_location_index := ((N - 1 : Nat) : Int) }))
    (t + ((N - 1 : Nat) : Int)) b
    { car with location := locm, path_location_index := ((N - 1 : Nat) : Int) }
    (N - 1) N b.destination hcmid rfl hN (by rw [← hNsucc]; exact hdest)
  rw [if_pos (by omega)] at hstep
  have hrunN : run_ticks N (State.mk cars [b] t) =
      State.mk (update_car (update_car cars b.car_id (fun c => { c with location := locm, path_location_index := ((N - 1 : Nat) : Int) })) b.car_id (fun c => { c with location := b.destination, is_booked := false, path_location_index := -1 })) [] (t + ((N - 1 : Nat) : Int) + 1) := by
    have h1 : run_ticks N (State.mk cars [b] t) =
        run_ticks ((N - 1) + 1) (State.mk cars [b] t) := by rw [← hNsucc]
    rw [h1, run_ticks_succ, hmid, hstep]
  have hgfin : get_car (run_ticks N (State.mk cars [b] t)) b.car_id =
      some { car with location := b.destination, is_booked := false, path_location_index := -1 } := by
    rw [hrunN]
    show (update_car (update_car _ _ _) _ _).find? _ = _
    rw [find?_update_car]
    · rw [find?_update_car]
      · rw [show cars.find? (fun c => c.car_id == b.car_id) = some car from hc]
        rfl
      · intro c; rfl
    · intro c; rfl
  have hgmid : get_car (run_ticks (N - 1) (State.mk cars [b] t)) b.car_id =
      some { car with location := locm, path_location_index := ((N - 1 : Nat) : Int) } := by
    rw [hmid]
    exact hcmid
  refine ⟨by rw [hrunN], by rw [hgfin]; rfl, by rw [hgfin]; rfl,
    by rw [hmid], by rw [hgmid, hlocm]; rfl⟩

theorem c1_witness :
    (run_ticks 1 skip_state_a).bookings = [] ∧
    (get_car (run_ticks 1 skip_state_a) solo_booking.car_id).map Car.location =
      some solo_booking.destination ∧
    (get_car (run_ticks 1 skip_state_a) solo_booking.car_id).map Car.is_booked =
      some false ∧
    (run_ticks (1 - 1) skip_state_a).bookings = [solo_booking] ∧
    (get_car (run_ticks (1 - 1) skip_state_a) solo_booking.car_id).map Car.location =
      solo_booking.path.get? (1 - 1) :=
  c1_single_booking skip_state_a solo_booking solo_car 1 (by decide) (by decide)
    rfl (by decide) (by decide) (by decide) (by decide)

/-- C2: bookCar's selection picks an unbooked car at minimal Manhattan
distance to the pickup, with the smallest id among unbooked cars at that
distance; when every car is booked (or none exists) the selection yields
`none`, bookCar signals NoAvailableCar, and the state is unchanged. -/
theorem c2_nearest_selection (s : State) (pickup destination : Location) :
    ((∃ c ∈ s.cars, c.is_booked = false) →
      ∃ c, find_nearest_available_car s pickup = some c ∧ c ∈ s.cars ∧
        c.is_booked = false ∧
        (∀ c' ∈ s.cars, c'.is_booked = false →
          calc_distance pickup c.location ≤ calc_distance pickup c'.location ∧
          (calc_distance pickup c'.location = calc_distance pickup c.location →
            c.car_id ≤ c'.car_id)) ∧
        (book_car s pickup destination).2.map Book.car_id = some c.car_id) ∧
    ((∀ c ∈ s.cars, c.is_booked = true) →
      find_nearest_available_car s pickup = none ∧
      book_car s pickup destination = (s, none)) := by
  have hinv := find_nearest_entry_inv s pickup
  constructor
  · rintro ⟨c0, hc0, hb0⟩
    rcases hfe : find_nearest_entry s pickup with _ | ⟨j, c, d⟩ <;> rw [hfe] at hinv
    · rw [hinv c0 hc0] at hb0; simp at hb0
    · obtain ⟨hun, hd, ⟨k, hk, hj⟩, hmin⟩ := hinv
      refine ⟨c, ?_, List.get?_mem hk, hun, ?_, ?_⟩
      · unfold find_nearest_available_car
        rw [hfe]
        rfl
      · intro c' hc' hun'
        have h2 := hmin c' hc' hun'
        exact ⟨by omega, fun he => h2.2 (by omega)⟩
      · unfold book_car
        rw [hfe]
        rfl
  · intro hall
    rcases hfe : find_nearest_entry s pickup with _ | ⟨j, c, d⟩ <;> rw [hfe] at hinv
    · constructor
      · unfold find_nearest_available_car
        rw [hfe]
        rfl
      · unfold book_car
        rw [hfe]
    · obtain ⟨hun, _, ⟨k, hk, _⟩, _⟩ := hinv
      rw [hall c (List.get?_mem hk)] at hun
      simp at hun

/-- Witness for C2 at the reset state: car 1 is chosen for pickup (1,1),
and after booking all three cars no car is available. -/
theorem c2_witness :
    (∃ c, find_nearest_available_car init_state ⟨1, 1⟩ = some c ∧
      c ∈ init_state.cars ∧ c.is_booked = false ∧
      (∀ c' ∈ init_state.cars, c'.is_booked = false →
        calc_distance ⟨1, 1⟩ c.location ≤ calc_distance ⟨1, 1⟩ c'.location ∧
        (calc_distance ⟨1, 1⟩ c'.location = calc_distance ⟨1, 1⟩ c.location →
          c.car_id ≤ c'.car_id)) ∧
      (book_car init_state ⟨1, 1⟩ ⟨2, 2⟩).2.map Book.car_id = some c.car_id) :=
  (c2_nearest_selection init_state ⟨1, 1⟩ ⟨2, 2⟩).1
    ⟨{ car_id := 1, name := "Toyota Prius" }, by decide, rfl⟩

/-- C3 (failing evaluation): in `skip_state` the first booking completes and
is popped during the tick, and the booking that shifts into its index is not
evaluated: after the tick the second booking is still active and its car has
not moved (location still (0,0), path-progress index still 0), contradicting
the claim that every active booking's car advances one step per tick. -/
theorem c3_skipped_booking :
    skip_state.bookings.length = 2 ∧
    (increment_time skip_state).2 = true ∧
    (increment_time skip_state).1.bookings = [skip_booking] ∧
    (get_car (increment_time skip_state).1 2).map Car.location = some ⟨0, 0⟩ ∧
    (get_car (increment_time skip_state).1 2).map Car.path_location_index =
      some 0 ∧
    (get_car (increment_time skip_state).1 2).map Car.is_booked = some true :=
  ⟨rfl, rfl, rfl, rfl, rfl, rfl⟩

/-- C4 (failing evaluation): at `degenerate_state` the error branch of
incrementTime() is reached — the lookup `book.path[1]` is out of bounds and
the operation does not complete, contrary to the claim that this branch is
unreachable for every state. -/
theorem c4_increment_time_raises :
    (increment_time degenerate_state).2 = false := rfl

/-- C5: calcPath(start, end) has length |Δx|+|Δy|+1, begins with start,
ends with end, each consecutive pair differs by one unit in exactly one axis,
goes vertically first (the first |Δy|+1 points all at start.x) and then
horizontally (the remaining points all at end.y), and equals [start] when
start = end. -/
theorem c5_calc_path_shape (start e : Location) :
    (calc_path start e).length =
      (e.x - start.x).natAbs + (e.y - start.y).natAbs + 1 ∧
    (calc_path start e).head? = some start ∧
    (calc_path start e).getLast? = some e ∧
    List.Chain' unit_step (calc_path start e) ∧
    (∀ p ∈ (calc_path start e).take ((e.y - start.y).natAbs + 1), p.x = start.x) ∧
    (∀ p ∈ (calc_path start e).drop ((e.y - start.y).natAbs + 1), p.y = e.y) ∧
    (start = e → calc_path start e = [start]) := by
  rw [calc_path_eq]
  have hvlen :
      ((List.range ((e.y - start.y).natAbs + 1)).map (vpoint start e)).length =
        (e.y - start.y).natAbs + 1 := by
    simp
  refine ⟨?_, ?_, ?_, ?_, ?_, ?_, ?_⟩
  · simp
    omega
  · rw [List.head?_append_of_ne_nil _ (by simp)]
    rw [head?_map_range, vpoint_zero]
  · rcases Nat.eq_zero_or_pos (e.x - start.x).natAbs with h0 | hpos
    · have hx : e.x = start.x := by omega
      rw [h0]
      simp only [List.range_zero, List.map_nil, List.append_nil]
      rw [getLast?_map_range _ _ (Nat.succ_pos _)]
      simp only [Nat.succ_sub_one, Nat.add_sub_cancel, vpoint_top]
      exact congrArg some (by cases e; cases start; simp_all)
    · rw [List.getLast?_append_of_ne_nil _ (by simp; omega)]
      rw [getLast?_map_range _ _ hpos, hpoint_last start e hpos]
  · rw [List.chain'_append]
    refine ⟨chain'_map_range _ _ _ (fun i _ => vpoint_chain start e i),
            chain'_map_range _ _ _ (fun i _ => hpoint_chain start e i), ?_⟩
    intro x hx y hy
    rw [getLast?_map_range _ _ (Nat.succ_pos _)] at hx
    rcases Nat.eq_zero_or_pos (e.x - start.x).natAbs with h0 | hpos
    · rw [h0] at hy
      simp at hy
    · obtain ⟨m, hm⟩ : ∃ m, (e.x - start.x).natAbs = m + 1 :=
        ⟨(e.x - start.x).natAbs - 1, by omega⟩
      rw [hm, head?_map_range] at hy
      simp only [Option.mem_def, Option.some.injEq] at hx hy
      subst hx
      subst hy
      simpa [Nat.add_sub_cancel, vpoint_top] using hpoint_zero start e
  · intro p hp
    rw [List.take_left' hvlen] at hp
    obtain ⟨i, _, rfl⟩ := List.mem_map.mp hp
    unfold vpoint
    split <;> rfl
  · intro p hp
    rw [List.drop_left' hvlen] at hp
    obtain ⟨i, _, rfl⟩ := List.mem_map.mp hp
    unfold hpoint
    split <;> rfl
  · intro hse
    subst hse
    simp [List.range_succ, vpoint_zero]

/-- Witness for C5 at concrete inputs: the vertical-leg membership at
(0,0)→(2,1), the horizontal-leg membership there, and the start = end case. -/
theorem c5_witness :
    (⟨0, 1⟩ : Location).x = (⟨0, 0⟩ : Location).x ∧
    (⟨1, 1⟩ : Location).y = (⟨2, 1⟩ : Location).y ∧
    calc_path ⟨0, 0⟩ ⟨0, 0⟩ = [⟨0, 0⟩] :=
  ⟨(c5_calc_path_shape ⟨0, 0⟩ ⟨2, 1⟩).2.2.2.2.1 ⟨0, 1⟩ (by decide),
   (c5_calc_path_shape ⟨0, 0⟩ ⟨2, 1⟩).2.2.2.2.2.1 ⟨1, 1⟩ (by decide),
   (c5_calc_path_shape ⟨0, 0⟩ ⟨0, 0⟩).2.2.2.2.2.2 rfl⟩

/-- C6: every successful bookCar returns a booking whose total_time is
`calcDistance(pickup, carLocation) + calcDistance(pickup, destination)` for
the chosen car's pre-booking location, and the car's location field itself is
left unchanged by the booking (only the booked flag and path index change). -/
theorem c6_total_time (s : State) (pickup destination : Location)
    (s' : State) (bk : Book)
    (h : book_car s pickup destination = (s', some bk)) :
    ∃ i c d, find_nearest_entry s pickup = some (i, c, d) ∧
      bk.total_time =
        calc_distance pickup c.location + calc_distance pickup destination ∧
      s'.cars.get? i = some { c with is_booked := true, path_location_index := 0 } := by
  have hinv := find_nearest_entry_inv s pickup
  unfold book_car at h
  rcases hfe : find_nearest_entry s pickup with _ | ⟨j, c, d⟩ <;> rw [hfe] at h hinv
  · simp at h
  · obtain ⟨_, _, ⟨k, hk, hj⟩, _⟩ := hinv
    rw [Prod.ext_iff] at h
    obtain ⟨hs', hbk⟩ := h
    simp only at hs' hbk
    refine ⟨j, c, d, rfl, ?_, ?_⟩
    · rw [← Option.some_inj.mp hbk]
      rfl
    · rw [← hs']
      have hlt : j < s.cars.length := by
        have := (List.get?_eq_some.mp hk).1
        omega
      exact List.get?_set_eq_of_lt _ hlt

/-- Witness for C6: booking from the reset state with pickup (1,1) and
destination (3,1). -/
theorem c6_witness :
    ∃ i c d, find_nearest_entry init_state ⟨1, 1⟩ = some (i, c, d) ∧
      c6_example_book.total_time =
        calc_distance ⟨1, 1⟩ c.location + calc_distance ⟨1, 1⟩ ⟨3, 1⟩ ∧
      (book_car init_state ⟨1, 1⟩ ⟨3, 1⟩).1.cars.get? i =
        some { c with is_booked := true, path_location_index := 0 } :=
  c6_total_time init_state ⟨1, 1⟩ ⟨3, 1⟩
    (book_car init_state ⟨1, 1⟩ ⟨3, 1⟩).1 c6_example_book rfl

/-- C7 (failing evaluation): at `degenerate_state`, incrementTime() neither
fully succeeds nor returns an alternative outcome: it stops with the state
partially updated — current_time is already advanced by 1 and the car's
path-progress index already bumped — so the operation is not atomic. -/
theorem c7_partial_update :
    (increment_time degenerate_state).2 = false ∧
    (increment_time degenerate_state).1.current_time =
      degenerate_state.current_time + 1 ∧
    (get_car (increment_time degenerate_state).1 1).map Car.path_location_index =
      some 1 ∧
    (increment_time degenerate_state).1 ≠ degenerate_state :=
  ⟨rfl, rfl, rfl, by decide⟩

/-- C8: in every reachable state — established by reset() and preserved by
every completing bookCar and incrementTime — a car's booked flag is true if
and only if exactly one active booking references its car id. -/
theorem c8_booked_iff_one_booking (s : State) (hreach : Reachable s) :
    ∀ c ∈ s.cars, (c.is_booked = true ↔ bookCount s c.car_id = 1) := by
  have hinv := reachable_strongInv s hreach
  intro c hc
  have h := hinv.2 c hc
  constructor
  · intro hb
    rw [hb] at h
    simpa using h
  · intro h1
    by_contra hb
    have hb' : c.is_booked = false := by
      revert hb
      cases c.is_booked <;> simp
    rw [hb', if_neg (by simp)] at h
    omega

theorem c8_witness :
    ((Car.mk 1 "Toyota Prius" ⟨0, 0⟩ false (-1)).is_booked = true ↔
      bookCount init_state (Car.mk 1 "Toyota Prius" ⟨0, 0⟩ false (-1)).car_id = 1) :=
  c8_booked_iff_one_booking init_state (Reachable.reset_init _) _ (by decide)

/-- C9: For every starting state, after reset() the state contains exactly
3 cars with ids 1, 2, 3, each with booked flag false, path-progress index at
the sentinel value -1, and location (0,0); the active-bookings list is empty;
and current_time equals 0. -/
theorem c9_reset_state (s : State) :
    (reset s).cars.length = 3 ∧
    (reset s).cars.map Car.car_id = [1, 2, 3] ∧
    (reset s).cars.map Car.is_booked = [false, false, false] ∧
    (reset s).cars.map Car.path_location_index = [-1, -1, -1] ∧
    (reset s).cars.map Car.location = [⟨0, 0⟩, ⟨0, 0⟩, ⟨0, 0⟩] ∧
    (reset s).bookings = [] ∧
    (reset s).current_time = 0 :=
  ⟨rfl, rfl, rfl, rfl, rfl, rfl, rfl⟩

/-- C10: A reachable state exists in which the path lookup of
incrementTime() is out of bounds: booking a trip whose pickup and destination
equal the chosen car's location yields the single-element path `[(0,0)]` and
path-progress index 0, and the next tick reads index 1 of that path, which
does not exist, so the operation cannot complete normally. -/
theorem c10_reachable_out_of_bounds :
    Reachable degenerate_state ∧
    (book_car init_state ⟨0, 0⟩ ⟨0, 0⟩).2 =
      some { source := ⟨0, 0⟩, destination := ⟨0, 0⟩, car_id := 1,
             path := [⟨0, 0⟩], total_time := 0 } ∧
    (get_car degenerate_state 1).map Car.path_location_index = some 0 ∧
    pyGet [(⟨0, 0⟩ : Location)] (0 + 1) = none ∧
    (increment_time degenerate_state).2 = false :=
  ⟨Reachable.book _ _ _ (Reachable.reset_init _), rfl, rfl, rfl, rfl⟩

end Taxi
